import Mathlib

/-!
Verification development for the strif repository (an STR interruption
profiler).  The two algorithmic source files, src/profile.rs and
src/merge.rs, are shallowly embedded below: Rust Strings are lists of
characters, HashMaps are association lists, u32 values are Nat with
explicit wrapping modulo 2 ^ 32 where overflow matters, f64 arithmetic is
idealised as exact rational arithmetic, and Rust panics / propagated
errors are modelled with Option / Except.
-/

set_option maxRecDepth 20000

namespace Strif

/-- Strings are modelled as lists of characters. -/
abbrev Str := List Char

/-! ## Generic containers: association lists standing in for HashMap -/

/-- Association-list lookup, modelling HashMap::get. -/
def lookupAssoc {α β : Type} [DecidableEq α] : List (α × β) → α → Option β
  | [], _ => none
  | e :: rest, k => if e.1 = k then some e.2 else lookupAssoc rest k

/-- Association-list update-or-insert, modelling the HashMap entry API:
the function receives the present value (if any) and produces the value
to store. -/
def assocUpdate {α β : Type} [DecidableEq α] (k : α) (f : Option β → β) :
    List (α × β) → List (α × β)
  | [] => [(k, f none)]
  | e :: rest => if e.1 = k then (e.1, f (some e.2)) :: rest else e :: assocUpdate k f rest

/-- Option-valued map over a list, propagating the first failure. -/
def mapOption {α β : Type} (f : α → Option β) : List α → Option (List β)
  | [] => some []
  | a :: rest =>
    match f a with
    | none => none
    | some b =>
      match mapOption f rest with
      | none => none
      | some bs => some (b :: bs)

/-! ## Splitting and joining on a separator character

These model Rust's str::split(sep) and Vec::join(sep) as used for the
comma/colon-delimited interruption cells. -/

/-- Model of str::split: splitting the empty string yields one empty
piece, and every separator occurrence starts a new piece. -/
def splitOnChar (sep : Char) : Str → List Str
  | [] => [[]]
  | c :: rest =>
    if c = sep then [] :: splitOnChar sep rest
    else
      match splitOnChar sep rest with
      | [] => [[c]]
      | cur :: parts => (c :: cur) :: parts

/-- Model of Vec::join on a separator character. -/
def joinSep (sep : Char) : List Str → Str
  | [] => []
  | [p] => p
  | p :: q :: rest => p ++ sep :: joinSep sep (q :: rest)

/-! ## Decimal digits: Display and str::parse for u32 -/

/-- Decimal digit character for a digit value in 0..9. -/
def digitToChar (d : Nat) : Char := Char.ofNat (48 + d)

/-- Numeric value of a decimal digit character, as consumed by
str::parse. -/
def digitVal (ch : Char) : Option Nat :=
  if '0' ≤ ch ∧ ch ≤ '9' then some (ch.toNat - 48) else none

/-- Fueled digit emission, mirroring the structure of the standard
decimal rendering of an unsigned integer (most significant digit first).
The fuel is always sufficient at the call site in natToDigits. -/
def natToDigitsCore : Nat → Nat → Str → Str
  | 0, _, acc => acc
  | fuel + 1, n, acc =>
    if n < 10 then digitToChar (n % 10) :: acc
    else natToDigitsCore fuel (n / 10) (digitToChar (n % 10) :: acc)

/-- Decimal rendering of a Nat, modelling format! of a u32. -/
def natToDigits (n : Nat) : Str := natToDigitsCore (n + 1) n []

/-- Left-to-right accumulation of decimal digits, failing on a
non-digit character; this is str::parse's digit loop. -/
def parseDigitsAcc : Str → Nat → Option Nat
  | [], acc => some acc
  | ch :: rest, acc =>
    match digitVal ch with
    | some d => parseDigitsAcc rest (acc * 10 + d)
    | none => none

/-- str::parse for unsigned integers accepts one optional leading plus
sign. -/
def stripPlus (s : Str) : Str :=
  match s with
  | c :: rest => if c = '+' then rest else s
  | [] => s

/-- Model of str::parse::<u32>: optional leading plus, a non-empty run
of decimal digits, and a range check.  (Rust checks overflow at each
step; failing exactly when the final value is at least 2 ^ 32 is
equivalent, because the accumulator is monotone.) -/
def parseU32 (s : Str) : Option Nat :=
  if stripPlus s = [] then none
  else
    match parseDigitsAcc (stripPlus s) 0 with
    | none => none
    | some v => if v < 2 ^ 32 then some v else none

/-! ## Wrapping u32 arithmetic (release-build semantics) -/

/-- Wrapping u32 subtraction: two's-complement wraparound, as in a Rust
release build. -/
def u32Sub (a b : Nat) : Nat := (a + (2 ^ 32 - b % 2 ^ 32)) % 2 ^ 32

/-- Wrapping u32 addition. -/
def u32Add (a b : Nat) : Nat := (a + b) % 2 ^ 32

/-! ## profile.rs: the Interruption Detector and Per-Sample Aggregator -/

/-- The edit operations of bio::alignment::AlignmentOperation. -/
inductive AlignmentOperation : Type
  | Match
  | Subst
  | Del
  | Ins
  | Xclip (len : Nat)
  | Yclip (len : Nat)
deriving DecidableEq

/-- Loop of find_interruptions (profile.rs lines 178-187): walk the
alignment path, growing the current run buffer on a substitution or
insertion, and flushing a non-empty buffer on any other operation.  The
base case returns the collected interruptions without flushing a
still-open run, exactly as the source does.  The source indexes
observed[observed_idx - 1]; an index of 0 (usize underflow) or one past
the end is a Rust panic, modelled as none. -/
def findInterruptionsGo (observed : Str) :
    List (Nat × Nat × AlignmentOperation) → List Str → Str → Option (List Str)
  | [], interruptions, _ => some interruptions
  | step :: rest, interruptions, interruption =>
    if step.2.2 = AlignmentOperation.Subst ∨ step.2.2 = AlignmentOperation.Ins then
      if step.1 = 0 then none
      else
        match observed.get? (step.1 - 1) with
        | none => none
        | some base => findInterruptionsGo observed rest interruptions (interruption ++ [base])
    else if interruption = [] then findInterruptionsGo observed rest interruptions []
    else findInterruptionsGo observed rest (interruptions ++ [interruption]) []

/-- find_interruptions (profile.rs lines 172-189), taking the alignment
path as the list of (x position, y position, operation) steps produced
by Alignment::path(). -/
def findInterruptions (path : List (Nat × Nat × AlignmentOperation)) (observed : Str) :
    Option (List Str) :=
  findInterruptionsGo observed path [] []

/-- create_pure_seq (profile.rs lines 191-196): tile the motif
len / motif.len() + 1 + pad times (Vec::repeat).  Nat division by zero
yields 0 in Lean while the Rust code panics on an empty motif; every
claim about this function carries a non-empty-motif hypothesis. -/
def createPureSeq (motif : Str) (len pad : Nat) : Str :=
  (List.replicate (len / motif.length + 1 + pad) motif).flatten

/-- One record of the JSON STR catalog, holding the three fields that
load_str_catalog removes; a field absent from the record is none
(HashMap::remove returning None). -/
structure CatalogRecord : Type where
  locusId : Option Str
  referenceRegion : Option Str
  locusStructure : Option Str

/-- The regex filter is abstracted as a boolean predicate on locus ids;
no filter means every locus matches. -/
def matchesFilter (filter : Option (Str → Bool)) (locusId : Str) : Bool :=
  match filter with
  | none => true
  | some f => f locusId

/-- The byte slice structure[1..structure.len() - 2] taken by
load_str_catalog (profile.rs line 226): defined only when the structure
string has at least 3 characters; otherwise the Rust slice panics
(usize underflow or inverted range), modelled as none. -/
def stripLocusStructure (s : Str) : Option Str :=
  if 3 ≤ s.length then some ((s.drop 1).take (s.length - 3)) else none

/-- Processing of one catalog record (profile.rs lines 212-227): none
models an unwrap or slice panic that aborts the whole load, some none a
record dropped by the filter, and some (some (locus, region, motif)) a
retained record with its derived motif. -/
def processCatalogRecord (filter : Option (Str → Bool)) (r : CatalogRecord) :
    Option (Option (Str × Str × Str)) :=
  match r.locusId with
  | none => none
  | some locusId =>
    if matchesFilter filter locusId then
      match r.referenceRegion with
      | none => none
      | some referenceRegion =>
        match r.locusStructure with
        | none => none
        | some st =>
          match stripLocusStructure st with
          | none => none
          | some motif => some (some (locusId, referenceRegion, motif))
    else some none

/-- Loop of load_str_catalog over the record list, accumulating the
motifs and reference_regions maps (HashMap::insert modelled as
replace-or-append). -/
def loadStrCatalogGo (filter : Option (Str → Bool)) :
    List CatalogRecord → List (Str × Str) → List (Str × Str) →
    Option (List (Str × Str) × List (Str × Str))
  | [], motifs, referenceRegions => some (motifs, referenceRegions)
  | r :: rest, motifs, referenceRegions =>
    match processCatalogRecord filter r with
    | none => none
    | some none => loadStrCatalogGo filter rest motifs referenceRegions
    | some (some y) =>
      loadStrCatalogGo filter rest
        (assocUpdate y.1 (fun _ => y.2.2) motifs)
        (assocUpdate y.1 (fun _ => y.2.1) referenceRegions)

/-- load_str_catalog (profile.rs lines 198-230). -/
def loadStrCatalog (filter : Option (Str → Bool)) (records : List CatalogRecord) :
    Option (List (Str × Str) × List (Str × Str)) :=
  loadStrCatalogGo filter records [] []

/-- The per-sample Profile accumulator (profile.rs lines 11-14):
interruption counts keyed per locus by (interruption, observed read
length), and a read count per locus. -/
structure Profile : Type where
  interruption_counts : List (Str × List ((Str × Nat) × Nat))
  read_counts : List (Str × Nat)
deriving DecidableEq

/-- Encoding of one interruption triple as interruption:len:count, as
formatted by Profile::write_to (profile.rs lines 67-68). -/
def encodeTriple (t : Str × Nat × Nat) : Str :=
  t.1 ++ ':' :: natToDigits t.2.1 ++ ':' :: natToDigits t.2.2

/-- The comma-joined interruption_counts cell written by
Profile::write_to (profile.rs lines 65-71). -/
def encodeCell (ts : List (Str × Nat × Nat)) : Str :=
  joinSep ',' (ts.map encodeTriple)

/-- One output row of the per-sample profile table. -/
structure ProfileOutRow : Type where
  locusId : Str
  referenceRegion : Str
  motif : Str
  readCount : Nat
  interruptionCell : Str
deriving DecidableEq

/-- The row Profile::write_to emits for one catalog locus (profile.rs
lines 55-76): the reference region lookup is unwrapped (none models the
panic), the read count defaults to 0 and the interruption map to empty
for a locus never observed. -/
def profileRowFor (p : Profile) (referenceRegions : List (Str × Str)) (lm : Str × Str) :
    Option ProfileOutRow :=
  match lookupAssoc referenceRegions lm.1 with
  | none => none
  | some rr =>
    some
      { locusId := lm.1
        referenceRegion := rr
        motif := lm.2
        readCount := (lookupAssoc p.read_counts lm.1).getD 0
        interruptionCell :=
          encodeCell
            (((lookupAssoc p.interruption_counts lm.1).getD []).map
              (fun e => (e.1.1, e.1.2, e.2))) }

/-- Profile::write_to (profile.rs lines 40-79): one row per locus of the
catalog's motif map (the header line is not modelled). -/
def profileWriteTo (p : Profile) (motifs referenceRegions : List (Str × Str)) :
    Option (List ProfileOutRow) :=
  mapOption (profileRowFor p referenceRegions) motifs

/-! ## merge.rs: the Cohort Merger -/

/-- The MergedProfile accumulator (merge.rs lines 19-24). -/
structure MergedProfile : Type where
  interruption_counts : List (Str × List ((Str × Str) × ℚ))
  read_counts : List (Str × List (Str × Nat))
  motifs : List (Str × Str)
  reference_regions : List (Str × Str)
deriving DecidableEq

/-- MergedProfile::new (merge.rs lines 27-34). -/
def MergedProfile.new : MergedProfile :=
  { interruption_counts := [], read_counts := [], motifs := [], reference_regions := [] }

/-- MergedProfile::increment_interruption (merge.rs lines 36-49):
entry(locus).or_insert_with(HashMap::new) then
entry((sample, interruption)).and_modify(add).or_insert(count). -/
def incrementInterruption (mp : MergedProfile) (locusId sampleId interruption : Str)
    (count : ℚ) : MergedProfile :=
  { mp with
    interruption_counts :=
      assocUpdate locusId
        (fun o =>
          assocUpdate (sampleId, interruption)
            (fun o2 =>
              match o2 with
              | some c => c + count
              | none => count)
            (o.getD []))
        mp.interruption_counts }

/-- MergedProfile::add_read_count (merge.rs lines 51-56):
entry(locus).or_insert_with(Vec::new).push((sample, count)). -/
def addReadCount (mp : MergedProfile) (locusId sampleId : Str) (count : Nat) :
    MergedProfile :=
  { mp with
    read_counts :=
      assocUpdate locusId (fun o => o.getD [] ++ [(sampleId, count)]) mp.read_counts }

/-- MergedProfile::add_reference_region (merge.rs lines 58-62):
entry(locus).or_insert(region) keeps an existing value. -/
def addReferenceRegion (mp : MergedProfile) (locusId referenceRegion : Str) :
    MergedProfile :=
  { mp with
    reference_regions :=
      assocUpdate locusId (fun o => o.getD referenceRegion) mp.reference_regions }

/-- MergedProfile::add_motif (merge.rs lines 64-68). -/
def addMotif (mp : MergedProfile) (locusId motif : Str) : MergedProfile :=
  { mp with motifs := assocUpdate locusId (fun o => o.getD motif) mp.motifs }

/-- norm_interruption_count (merge.rs lines 220-224).  The subtraction
and the increment are u32 operations, so they wrap modulo 2 ^ 32 in a
release build; the f64 quotient is idealised as a rational (division by
zero yields 0 in ℚ where the f64 code produces an infinity). -/
def normInterruptionCount (count readLen repeatLen : Nat) (readDepth : ℚ) : ℚ :=
  let numPossibleStart : Nat := u32Add (u32Sub readLen repeatLen) 1
  let expectedNumReads : ℚ := (numPossibleStart : ℚ) * readDepth
  (count : ℚ) / expectedNumReads

/-- Modelled from the spec's words for comparison with the code: the
normalization formula raw_count / ((read_length - repeat_len + 1) *
sample_read_depth) read as exact (non-wrapping) arithmetic over ℚ. -/
def specNormalizedCount (count readLen repeatLen : Nat) (readDepth : ℚ) : ℚ :=
  (count : ℚ) / (((readLen : ℚ) - (repeatLen : ℚ) + 1) * readDepth)

/-- The data-quality condition of merge.rs line 192:
repeat_len == 0 || repeat_len > read_len.  It guards a log line only. -/
def repeatLenInvalid (repeatLen readLen : Nat) : Bool :=
  decide (repeatLen = 0) || decide (readLen < repeatLen)

/-- The data-quality condition of merge.rs line 199 on the normalized
count.  Infinities and NaN cannot arise in the rational idealisation,
leaving negativity as the representable part of the condition.  It
guards a log line only. -/
def normCountInvalid (q : ℚ) : Bool := decide (q < 0)

/-- How one pass of the merge loop can abort: an out-of-bounds index
(slice indexing panic), the unchecked unwrap of the read-depth lookup
(merge.rs line 196), or a numeric parse error propagated with the
question-mark operator. -/
inductive MergeAbort : Type
  | indexPanic
  | depthLookupPanic
  | parseError
deriving DecidableEq

/-- Processing of one colon-delimited triple of an interruption cell
(merge.rs lines 189-211): split on ':', index parts 0, 1 and 2 (fewer
parts is an indexing panic), parse the two numbers (failures propagate
as errors), look up the sample's read depth (a missing sample is an
unwrap panic), normalize, and accumulate.  The two warn! calls are log
lines with no state effect; their conditions are repeatLenInvalid and
normCountInvalid. -/
def processTriplePart (depths : List (Str × ℚ)) (sampleId locusId : Str) (readLen : Nat)
    (mp : MergedProfile) (part : Str) : Except MergeAbort MergedProfile :=
  match splitOnChar ':' part with
  | interruption :: rlField :: cField :: _ =>
    match parseU32 rlField with
    | none => Except.error MergeAbort.parseError
    | some repeatLen =>
      match parseU32 cField with
      | none => Except.error MergeAbort.parseError
      | some count =>
        match lookupAssoc depths sampleId with
        | none => Except.error MergeAbort.depthLookupPanic
        | some readDepth =>
          Except.ok
            (incrementInterruption mp locusId sampleId interruption
              (normInterruptionCount count readLen repeatLen readDepth))
  | _ => Except.error MergeAbort.indexPanic

/-- Left-to-right processing of the comma-separated parts of an
interruption cell, stopping at the first abort. -/
def processTriples (depths : List (Str × ℚ)) (sampleId locusId : Str) (readLen : Nat) :
    MergedProfile → List Str → Except MergeAbort MergedProfile
  | mp, [] => Except.ok mp
  | mp, part :: rest =>
    match processTriplePart depths sampleId locusId readLen mp part with
    | Except.error e => Except.error e
    | Except.ok mp' => processTriples depths sampleId locusId readLen mp' rest

/-- One row of a persisted per-sample profile table as read back by
merge (columns 0-4 of the TSV record; the record is assumed to have its
five columns, since a shorter record would panic at record.get). -/
structure ProfileRow : Type where
  locusId : Str
  referenceRegion : Str
  motif : Str
  readCountField : Str
  interruptionCell : Str
deriving DecidableEq

/-- Processing of one profile row by merge (merge.rs lines 157-212):
skip on filter mismatch; parse the read count (propagating errors);
skip the whole row when below the minimum; otherwise record the read
count, then the reference region and motif, then process the
interruption cell unless it is empty. -/
def processRow (filter : Option (Str → Bool)) (minReadCount readLen : Nat)
    (depths : List (Str × ℚ)) (sampleId : Str) (mp : MergedProfile) (row : ProfileRow) :
    Except MergeAbort MergedProfile :=
  if matchesFilter filter row.locusId then
    match parseU32 row.readCountField with
    | none => Except.error MergeAbort.parseError
    | some readCount =>
      if readCount < minReadCount then Except.ok mp
      else
        if row.interruptionCell = [] then
          Except.ok
            (addMotif
              (addReferenceRegion (addReadCount mp row.locusId sampleId readCount)
                row.locusId row.referenceRegion)
              row.locusId row.motif)
        else
          processTriples depths sampleId row.locusId readLen
            (addMotif
              (addReferenceRegion (addReadCount mp row.locusId sampleId readCount)
                row.locusId row.referenceRegion)
              row.locusId row.motif)
            (splitOnChar ',' row.interruptionCell)
  else Except.ok mp

/-- The parsing layer of merge's interruption-cell handling (merge.rs
lines 183-195) in isolation: an empty cell holds no triples; otherwise
split on ',', split each part on ':', take parts 0, 1 and 2 and parse
the two numbers.  Both the indexing panic (fewer than three parts) and
a numeric parse failure are none here. -/
def parseTriplePart (part : Str) : Option (Str × Nat × Nat) :=
  match splitOnChar ':' part with
  | s :: rlField :: cField :: _ =>
    match parseU32 rlField, parseU32 cField with
    | some n, some c => some (s, n, c)
    | _, _ => none
  | _ => none

/-- Re-parsing of a whole interruption cell as merge does. -/
def parseCell (cell : Str) : Option (List (Str × Nat × Nat)) :=
  if cell = [] then some []
  else mapOption parseTriplePart (splitOnChar ',' cell)

/-- One output row of the merged profile table.  The two cells carry
the data they are formatted from; the textual rendering of the f64
normalized counts is not modelled. -/
structure MergedOutRow : Type where
  locusId : Str
  referenceRegion : Str
  motif : Str
  readCounts : List (Str × Nat)
  interruptionCounts : List ((Str × Str) × ℚ)
deriving DecidableEq

/-- The row MergedProfile::write_to emits for one locus of the motifs
map (merge.rs lines 77-101): the reference_regions and read_counts
lookups are unwrapped (none models the panic), while the
interruption_counts lookup falls back to an empty map. -/
def mergedRowFor (mp : MergedProfile) (lm : Str × Str) : Option MergedOutRow :=
  match lookupAssoc mp.reference_regions lm.1 with
  | none => none
  | some rr =>
    match lookupAssoc mp.read_counts lm.1 with
    | none => none
    | some rcs =>
      some
        { locusId := lm.1
          referenceRegion := rr
          motif := lm.2
          readCounts := rcs
          interruptionCounts := (lookupAssoc mp.interruption_counts lm.1).getD [] }

/-- MergedProfile::write_to (merge.rs lines 70-104). -/
def mergedWriteTo (mp : MergedProfile) : Option (List MergedOutRow) :=
  mapOption (mergedRowFor mp) mp.motifs

/-- The key invariant of the merged accumulator: every locus keyed in
motifs is keyed in reference_regions and holds a non-empty read-count
list. -/
def mpInvariant (mp : MergedProfile) : Prop :=
  ∀ l m, lookupAssoc mp.motifs l = some m →
    (lookupAssoc mp.reference_regions l).isSome ∧
    ∃ cs, lookupAssoc mp.read_counts l = some cs ∧ cs ≠ []

/-! ## Helper lemmas about the container and codec functions -/

theorem lookupAssoc_assocUpdate {α β : Type} [DecidableEq α] (k k' : α) (f : Option β → β) :
    ∀ l : List (α × β),
      lookupAssoc (assocUpdate k f l) k' =
        if k' = k then some (f (lookupAssoc l k)) else lookupAssoc l k'
  | [] => by
    by_cases h : k' = k
    · simp [assocUpdate, lookupAssoc, h]
    · have h' : ¬k = k' := fun he => h he.symm
      simp [assocUpdate, lookupAssoc, h, h']
  | e :: rest => by
    by_cases h1 : e.1 = k
    · by_cases h2 : k' = k
      · simp [assocUpdate, lookupAssoc, h1, h2]
      · have h2' : ¬k = k' := fun he => h2 he.symm
        have h3 : e.1 ≠ k' := fun he => h2 (he ▸ h1)
        simp [assocUpdate, lookupAssoc, h1, h2, h2', h3]
    · by_cases h2 : e.1 = k'
      · have h3 : ¬k' = k := fun he => h1 (he ▸ h2)
        simp [assocUpdate, lookupAssoc, h1, h2, h3]
      · simp [assocUpdate, lookupAssoc, h1, h2, lookupAssoc_assocUpdate k k' f rest]

theorem lookupAssoc_isSome_of_mem {α β : Type} [DecidableEq α] {k : α} {v : β} :
    ∀ {l : List (α × β)}, (k, v) ∈ l → (lookupAssoc l k).isSome
  | [], h => by simp at h
  | e :: rest, h => by
    rcases List.mem_cons.1 h with h1 | h1
    · simp [lookupAssoc, ← h1]
    · by_cases h2 : e.1 = k <;>
        simp [lookupAssoc, h2, lookupAssoc_isSome_of_mem h1]

theorem mapOption_isSome {α β : Type} (f : α → Option β) :
    ∀ l : List α, (∀ a ∈ l, (f a).isSome) → (mapOption f l).isSome
  | [], _ => by simp [mapOption]
  | a :: rest, h => by
    obtain ⟨b, hb⟩ := Option.isSome_iff_exists.1 (h a (by simp))
    obtain ⟨bs, hbs⟩ :=
      Option.isSome_iff_exists.1
        (mapOption_isSome f rest (fun x hx => h x (List.mem_cons_of_mem _ hx)))
    simp [mapOption, hb, hbs]

theorem splitOnChar_ne_nil (sep : Char) : ∀ l : Str, splitOnChar sep l ≠ []
  | [] => by simp [splitOnChar]
  | c :: rest => by
    by_cases h : c = sep
    · simp [splitOnChar, h]
    · have := splitOnChar_ne_nil sep rest
      simp only [splitOnChar, if_neg h]
      cases splitOnChar sep rest with
      | nil => simp
      | cons cur parts => simp

theorem splitOnChar_of_not_mem {sep : Char} : ∀ {l : Str}, sep ∉ l → splitOnChar sep l = [l]
  | [], _ => rfl
  | c :: rest, h => by
    have hc : ¬c = sep := fun he => h (he ▸ List.mem_cons_self c rest)
    have hrest : sep ∉ rest := fun hm => h (List.mem_cons_of_mem _ hm)
    simp [splitOnChar, hc, splitOnChar_of_not_mem hrest]

theorem splitOnChar_append_cons (sep : Char) (l : Str) :
    ∀ {p : Str}, sep ∉ p → splitOnChar sep (p ++ sep :: l) = p :: splitOnChar sep l
  | [], _ => by simp [splitOnChar]
  | c :: p', hp => by
    have hc : ¬c = sep := fun he => hp (he ▸ List.mem_cons_self c p')
    have hp' : sep ∉ p' := fun hm => hp (List.mem_cons_of_mem _ hm)
    simp [splitOnChar, hc, splitOnChar_append_cons sep l hp']

theorem splitOnChar_joinSep (sep : Char) :
    ∀ parts : List Str, parts ≠ [] → (∀ p ∈ parts, sep ∉ p) →
      splitOnChar sep (joinSep sep parts) = parts
  | [], h, _ => absurd rfl h
  | [p], _, h2 => by simp [joinSep, splitOnChar_of_not_mem (h2 p (by simp))]
  | p :: q :: rest, _, h2 => by
    have ih :=
      splitOnChar_joinSep sep (q :: rest) (by simp)
        (fun x hx => h2 x (List.mem_cons_of_mem _ hx))
    simp [joinSep, splitOnChar_append_cons sep _ (h2 p (by simp)), ih]

/-! ## Helper lemmas about decimal rendering and parsing -/

theorem natToDigitsCore_append : ∀ (fuel n : Nat) (acc : Str),
    natToDigitsCore fuel n acc = natToDigitsCore fuel n [] ++ acc
  | 0, _, _ => rfl
  | fuel + 1, n, acc => by
    by_cases h : n < 10
    · simp [natToDigitsCore, h]
    · simp only [natToDigitsCore, if_neg h]
      rw [natToDigitsCore_append fuel (n / 10) (digitToChar (n % 10) :: acc),
        natToDigitsCore_append fuel (n / 10) [digitToChar (n % 10)]]
      simp

theorem digitVal_digitToChar : ∀ {d : Nat}, d < 10 → digitVal (digitToChar d) = some d := by
  intro d h
  interval_cases d <;> decide

theorem digitToChar_not_special : ∀ {d : Nat}, d < 10 →
    digitToChar d ≠ ':' ∧ digitToChar d ≠ ',' ∧ digitToChar d ≠ '+' := by
  intro d h
  interval_cases d <;> exact ⟨by decide, by decide, by decide⟩

theorem natToDigitsCore_mem : ∀ (fuel n : Nat) (ch : Char),
    ch ∈ natToDigitsCore fuel n [] → ∃ d, d < 10 ∧ ch = digitToChar d
  | 0, n, ch => by simp [natToDigitsCore]
  | fuel + 1, n, ch => by
    by_cases h : n < 10
    · simp only [natToDigitsCore, if_pos h, List.mem_singleton]
      exact fun he => ⟨n % 10, Nat.mod_lt n (by norm_num), he⟩
    · simp only [natToDigitsCore, if_neg h]
      rw [natToDigitsCore_append]
      intro hmem
      rcases List.mem_append.1 hmem with h1 | h1
      · exact natToDigitsCore_mem fuel (n / 10) ch h1
      · exact ⟨n % 10, Nat.mod_lt n (by norm_num), List.mem_singleton.1 h1⟩

theorem natToDigits_mem {n : Nat} {ch : Char} (h : ch ∈ natToDigits n) :
    ∃ d, d < 10 ∧ ch = digitToChar d :=
  natToDigitsCore_mem _ _ _ h

theorem colon_not_mem_natToDigits (n : Nat) : ':' ∉ natToDigits n := by
  intro h
  obtain ⟨d, hd, he⟩ := natToDigits_mem h
  exact (digitToChar_not_special hd).1 he.symm

theorem comma_not_mem_natToDigits (n : Nat) : ',' ∉ natToDigits n := by
  intro h
  obtain ⟨d, hd, he⟩ := natToDigits_mem h
  exact (digitToChar_not_special hd).2.1 he.symm

theorem natToDigits_ne_nil (n : Nat) : natToDigits n ≠ [] := by
  unfold natToDigits
  by_cases h : n < 10
  · simp [natToDigitsCore, h]
  · simp only [natToDigitsCore, if_neg h]
    rw [natToDigitsCore_append]
    simp

theorem parseDigitsAcc_append : ∀ (l1 l2 : Str) (a : Nat),
    parseDigitsAcc (l1 ++ l2) a = (parseDigitsAcc l1 a).bind (fun m => parseDigitsAcc l2 m)
  | [], _, _ => rfl
  | ch :: rest, l2, a => by
    simp only [List.cons_append, parseDigitsAcc]
    cases digitVal ch with
    | none => rfl
    | some d => exact parseDigitsAcc_append rest l2 (a * 10 + d)

theorem parseDigitsAcc_natToDigitsCore : ∀ (fuel n : Nat), n < 10 ^ fuel → ∀ a : Nat,
    parseDigitsAcc (natToDigitsCore fuel n []) a =
      some (a * 10 ^ (natToDigitsCore fuel n []).length + n)
  | 0, n, hn, a => by
    have hn0 : n = 0 := Nat.lt_one_iff.1 (by simpa using hn)
    simp [natToDigitsCore, parseDigitsAcc, hn0]
  | fuel + 1, n, hn, a => by
    have h10 : (0 : Nat) < 10 := by norm_num
    have hm : n % 10 < 10 := Nat.mod_lt n h10
    by_cases h : n < 10
    · have hmod : n % 10 = n := Nat.mod_eq_of_lt h
      simp [natToDigitsCore, h, parseDigitsAcc, hmod, digitVal_digitToChar h]
    · have hdiv : n / 10 < 10 ^ fuel := by
        rw [Nat.div_lt_iff_lt_mul h10]
        calc n < 10 ^ (fuel + 1) := hn
          _ = 10 ^ fuel * 10 := pow_succ 10 fuel
      simp only [natToDigitsCore, if_neg h]
      rw [natToDigitsCore_append, parseDigitsAcc_append,
        parseDigitsAcc_natToDigitsCore fuel (n / 10) hdiv a]
      simp only [Option.some_bind, parseDigitsAcc, digitVal_digitToChar hm,
        List.length_append, List.length_singleton]
      congr 1
      calc (a * 10 ^ (natToDigitsCore fuel (n / 10) []).length + n / 10) * 10 + n % 10
          = a * (10 ^ (natToDigitsCore fuel (n / 10) []).length * 10) +
              (10 * (n / 10) + n % 10) := by ring
        _ = a * 10 ^ ((natToDigitsCore fuel (n / 10) []).length + 1) + n := by
            rw [Nat.div_add_mod, pow_succ]

theorem parseU32_natToDigits : ∀ {n : Nat}, n < 2 ^ 32 → parseU32 (natToDigits n) = some n := by
  intro n h
  have hne := natToDigits_ne_nil n
  obtain ⟨ch, t, he⟩ := List.exists_cons_of_ne_nil hne
  obtain ⟨d, hd, hchd⟩ := @natToDigits_mem n ch (by rw [he]; exact List.mem_cons_self ch t)
  have hplus : ¬ch = '+' := by
    rw [hchd]
    exact (digitToChar_not_special hd).2.2
  have hstrip : stripPlus (natToDigits n) = natToDigits n := by
    rw [he]
    simp [stripPlus, hplus]
  have hlt : n < 10 ^ (n + 1) :=
    lt_of_lt_of_le (Nat.lt_pow_self (by norm_num) n)
      (Nat.pow_le_pow_right (by norm_num) (Nat.le_succ n))
  have hparse : parseDigitsAcc (natToDigits n) 0 = some n := by
    have := parseDigitsAcc_natToDigitsCore (n + 1) n hlt 0
    simpa [natToDigits] using this
  simp only [parseU32, hstrip, if_neg hne, hparse, h, if_pos]

/-! ## Helper lemmas about the interruption-cell codec -/

theorem encodeTriple_eq (s : Str) (n c : Nat) :
    encodeTriple (s, n, c) = s ++ ':' :: (natToDigits n ++ ':' :: natToDigits c) := by
  simp [encodeTriple]

theorem splitColon_encodeTriple (s : Str) (n c : Nat) (hs : ':' ∉ s) :
    splitOnChar ':' (encodeTriple (s, n, c)) = [s, natToDigits n, natToDigits c] := by
  rw [encodeTriple_eq, splitOnChar_append_cons ':' _ hs,
    splitOnChar_append_cons ':' _ (colon_not_mem_natToDigits n),
    splitOnChar_of_not_mem (colon_not_mem_natToDigits c)]

theorem parseTriplePart_encodeTriple {s : Str} {n c : Nat} (hs : ':' ∉ s)
    (hn : n < 2 ^ 32) (hc : c < 2 ^ 32) :
    parseTriplePart (encodeTriple (s, n, c)) = some (s, n, c) := by
  simp [parseTriplePart, splitColon_encodeTriple s n c hs,
    parseU32_natToDigits hn, parseU32_natToDigits hc]

theorem comma_not_mem_encodeTriple {s : Str} (n c : Nat) (hcomma : ',' ∉ s) :
    ',' ∉ encodeTriple (s, n, c) := by
  rw [encodeTriple_eq]
  intro h
  rcases List.mem_append.1 h with h1 | h1
  · exact hcomma h1
  · rcases List.mem_cons.1 h1 with h2 | h2
    · exact absurd h2 (by decide)
    · rcases List.mem_append.1 h2 with h3 | h3
      · exact comma_not_mem_natToDigits n h3
      · rcases List.mem_cons.1 h3 with h4 | h4
        · exact absurd h4 (by decide)
        · exact comma_not_mem_natToDigits c h4

theorem encodeTriple_ne_nil (t : Str × Nat × Nat) : encodeTriple t ≠ [] := by
  simp [encodeTriple]

theorem encodeCell_ne_nil : ∀ {ts : List (Str × Nat × Nat)}, ts ≠ [] → encodeCell ts ≠ []
  | [], h => absurd rfl h
  | [t], _ => by
    simpa [encodeCell, joinSep] using encodeTriple_ne_nil t
  | t :: q :: rest, _ => by
    simp [encodeCell, joinSep]

theorem splitComma_encodeCell {ts : List (Str × Nat × Nat)} (hne : ts ≠ [])
    (h : ∀ t ∈ ts, ',' ∉ t.1) :
    splitOnChar ',' (encodeCell ts) = ts.map encodeTriple := by
  apply splitOnChar_joinSep ',' (ts.map encodeTriple) (by simpa using hne)
  intro p hp
  obtain ⟨t, ht, hpe⟩ := List.mem_map.1 hp
  rw [← hpe]
  exact comma_not_mem_encodeTriple t.2.1 t.2.2 (h t ht)

theorem mapOption_parse_encode : ∀ ts : List (Str × Nat × Nat),
    (∀ t ∈ ts, ':' ∉ t.1 ∧ t.2.1 < 2 ^ 32 ∧ t.2.2 < 2 ^ 32) →
    mapOption parseTriplePart (ts.map encodeTriple) = some ts
  | [], _ => rfl
  | t :: rest, h => by
    have h1 := h t (by simp)
    simp [mapOption, parseTriplePart_encodeTriple h1.1 h1.2.1 h1.2.2,
      mapOption_parse_encode rest (fun x hx => h x (List.mem_cons_of_mem _ hx))]

/-! ## Helper lemmas about wrapping u32 arithmetic -/

theorem u32Sub_of_le {a b : Nat} (hb : b ≤ a) (ha : a < 2 ^ 32) : u32Sub a b = a - b := by
  have hb2 : b < 2 ^ 32 := lt_of_le_of_lt hb ha
  unfold u32Sub
  rw [Nat.mod_eq_of_lt hb2]
  have h1 : a + (2 ^ 32 - b) = (a - b) + 2 ^ 32 := by omega
  rw [h1, Nat.add_mod_right, Nat.mod_eq_of_lt (by omega)]

theorem u32Add_small {a : Nat} (h : a + 1 < 2 ^ 32) : u32Add a 1 = a + 1 := by
  unfold u32Add
  exact Nat.mod_eq_of_lt h

/-! ## Helper lemmas about the merge loop -/

theorem processTriplePart_encode (depths : List (Str × ℚ)) (sampleId locusId : Str)
    (readLen : Nat) (mp : MergedProfile) {s : Str} {rl c : Nat}
    (hs : ':' ∉ s) (hrl : rl < 2 ^ 32) (hc : c < 2 ^ 32) :
    processTriplePart depths sampleId locusId readLen mp (encodeTriple (s, rl, c)) =
      match lookupAssoc depths sampleId with
      | none => Except.error MergeAbort.depthLookupPanic
      | some d =>
        Except.ok
          (incrementInterruption mp locusId sampleId s
            (normInterruptionCount c readLen rl d)) := by
  simp [processTriplePart, splitColon_encodeTriple s rl c hs,
    parseU32_natToDigits hrl, parseU32_natToDigits hc]

theorem processTriplePart_ok_fields {depths : List (Str × ℚ)} {sampleId locusId : Str}
    {readLen : Nat} {mp : MergedProfile} {part : Str} {mp' : MergedProfile}
    (h : processTriplePart depths sampleId locusId readLen mp part = Except.ok mp') :
    mp'.motifs = mp.motifs ∧ mp'.reference_regions = mp.reference_regions ∧
      mp'.read_counts = mp.read_counts := by
  unfold processTriplePart at h
  split at h
  · split at h
    · exact Except.noConfusion h
    · split at h
      · exact Except.noConfusion h
      · split at h
        · exact Except.noConfusion h
        · injection h with h
          subst h
          exact ⟨rfl, rfl, rfl⟩
  · exact Except.noConfusion h

theorem processTriples_ok_fields (depths : List (Str × ℚ)) (sampleId locusId : Str)
    (readLen : Nat) :
    ∀ (parts : List Str) (mp mp' : MergedProfile),
      processTriples depths sampleId locusId readLen mp parts = Except.ok mp' →
      mp'.motifs = mp.motifs ∧ mp'.reference_regions = mp.reference_regions ∧
        mp'.read_counts = mp.read_counts
  | [], mp, mp', h => by
    simp only [processTriples] at h
    injection h with h
    subst h
    exact ⟨rfl, rfl, rfl⟩
  | part :: rest, mp, mp', h => by
    simp only [processTriples] at h
    cases hstep : processTriplePart depths sampleId locusId readLen mp part with
    | error e => rw [hstep] at h; exact absurd h (by simp)
    | ok mp2 =>
      rw [hstep] at h
      simp only at h
      obtain ⟨h1, h2, h3⟩ :=
        processTriples_ok_fields depths sampleId locusId readLen rest mp2 mp' h
      obtain ⟨g1, g2, g3⟩ := processTriplePart_ok_fields hstep
      exact ⟨h1.trans g1, h2.trans g2, h3.trans g3⟩

theorem mpInvariant_congr {mp mp' : MergedProfile} (h1 : mp'.motifs = mp.motifs)
    (h2 : mp'.reference_regions = mp.reference_regions)
    (h3 : mp'.read_counts = mp.read_counts) (h : mpInvariant mp) : mpInvariant mp' := by
  intro l m hl
  rw [h1] at hl
  rw [h2, h3]
  exact h l m hl

theorem mpInvariant_after_adds (mp : MergedProfile) (l s rr m : Str) (rc : Nat)
    (h : mpInvariant mp) :
    mpInvariant (addMotif (addReferenceRegion (addReadCount mp l s rc) l rr) l m) := by
  intro l' m' hl'
  simp only [addMotif, addReferenceRegion, addReadCount] at hl' ⊢
  rw [lookupAssoc_assocUpdate] at hl'
  rw [lookupAssoc_assocUpdate, lookupAssoc_assocUpdate]
  by_cases he : l' = l
  · rw [if_pos he]
    refine ⟨by simp, ?_⟩
    rw [if_pos he]
    exact ⟨(lookupAssoc mp.read_counts l).getD [] ++ [(s, rc)], rfl, by simp⟩
  · rw [if_neg he] at hl'
    rw [if_neg he, if_neg he]
    exact h l' m' hl'

theorem processRow_preserves_mpInvariant
    {filter : Option (Str → Bool)} {minRC readLen : Nat} {depths : List (Str × ℚ)}
    {sampleId : Str} {mp : MergedProfile} {row : ProfileRow} {mp' : MergedProfile}
    (hInv : mpInvariant mp)
    (h : processRow filter minRC readLen depths sampleId mp row = Except.ok mp') :
    mpInvariant mp' := by
  unfold processRow at h
  split at h
  · split at h
    · exact absurd h (by simp)
    · rename_i rc _
      have hInv3 :=
        mpInvariant_after_adds mp row.locusId sampleId row.referenceRegion row.motif rc hInv
      split at h
      · injection h with h
        exact h ▸ hInv
      · split at h
        · injection h with h
          exact h ▸ hInv3
        · obtain ⟨h1, h2, h3⟩ := processTriples_ok_fields _ _ _ _ _ _ _ h
          exact mpInvariant_congr h1 h2 h3 hInv3
  · injection h with h
    exact h ▸ hInv

theorem mergedWriteTo_isSome {mp : MergedProfile} (h : mpInvariant mp) :
    (mergedWriteTo mp).isSome := by
  apply mapOption_isSome
  intro lm hlm
  obtain ⟨a, b⟩ := lm
  have hsome : (lookupAssoc mp.motifs a).isSome := lookupAssoc_isSome_of_mem hlm
  obtain ⟨m', hm'⟩ := Option.isSome_iff_exists.1 hsome
  obtain ⟨hrr, cs, hcs, _⟩ := h a m' hm'
  obtain ⟨rr, hrr'⟩ := Option.isSome_iff_exists.1 hrr
  simp [mergedRowFor, hrr', hcs]

theorem loadStrCatalogGo_none (filter : Option (Str → Bool)) :
    ∀ (records : List CatalogRecord) (ms rs : List (Str × Str)) (r : CatalogRecord),
      r ∈ records → processCatalogRecord filter r = none →
      loadStrCatalogGo filter records ms rs = none
  | [], _, _, r, hr, _ => absurd hr (by simp)
  | r' :: rest, ms, rs, r, hr, hnone => by
    rcases List.mem_cons.1 hr with h1 | h1
    · subst h1
      simp [loadStrCatalogGo, hnone]
    · cases hpr : processCatalogRecord filter r' with
      | none => simp [loadStrCatalogGo, hpr]
      | some o =>
        cases o with
        | none =>
          simp only [loadStrCatalogGo, hpr]
          exact loadStrCatalogGo_none filter rest ms rs r h1 hnone
        | some y =>
          simp only [loadStrCatalogGo, hpr]
          exact loadStrCatalogGo_none filter rest _ _ r h1 hnone

/-! ## Claim theorems -/

/-- C1 (the code drops the required trailing flush): walking an
alignment path that ends in a substitution returns no interruption at
all, while the very same run is emitted once a later match operation
closes it.  The claim and the spec require the trailing run "T" of the
first path to be flushed when the path is exhausted; find_interruptions
has no flush after its loop, so the trailing run is silently lost. -/
theorem find_interruptions_trailing_run :
    findInterruptions
        [(1, 1, AlignmentOperation.Match), (2, 2, AlignmentOperation.Match),
          (3, 3, AlignmentOperation.Subst)] ("ACT").data = some [] ∧
    findInterruptions
        [(1, 1, AlignmentOperation.Match), (2, 2, AlignmentOperation.Match),
          (3, 3, AlignmentOperation.Subst), (4, 4, AlignmentOperation.Match)]
        ("ACTA").data = some [("T").data] :=
  ⟨rfl, rfl⟩

/-- C2: encoding a list of interruption triples (s, n, c) as s:n:c
joined with commas, exactly as Profile::write_to formats the cell, and
re-parsing the cell by splitting on ',' then ':' with numeric parses,
exactly as merge does, recovers the original triples, provided no
substring s contains ':' or ',' and the numbers are u32-sized (as they
are in the source, where both are u32 values).  Recovering the list in
order is stronger than recovering the set. -/
theorem interruption_cell_round_trip (ts : List (Str × Nat × Nat))
    (h : ∀ t ∈ ts, ':' ∉ t.1 ∧ ',' ∉ t.1 ∧ t.2.1 < 2 ^ 32 ∧ t.2.2 < 2 ^ 32) :
    parseCell (encodeCell ts) = some ts := by
  rcases eq_or_ne ts [] with hne | hne
  · subst hne
    rfl
  · rw [parseCell, if_neg (encodeCell_ne_nil hne),
      splitComma_encodeCell hne (fun t ht => (h t ht).2.1)]
    exact
      mapOption_parse_encode ts
        (fun t ht => ⟨(h t ht).1, (h t ht).2.2.1, (h t ht).2.2.2⟩)

/-- Witness for C2 at a concrete two-triple cell. -/
theorem interruption_cell_round_trip_witness :
    (∀ t ∈ [(("T").data, 15, 1), (("GG").data, 12, 3)],
      ':' ∉ t.1 ∧ ',' ∉ t.1 ∧ t.2.1 < 2 ^ 32 ∧ t.2.2 < 2 ^ 32) ∧
    parseCell (encodeCell [(("T").data, 15, 1), (("GG").data, 12, 3)]) =
      some [(("T").data, 15, 1), (("GG").data, 12, 3)] :=
  ⟨by decide, interruption_cell_round_trip _ (by decide)⟩

/-- C6: create_pure_seq tiles the motif exactly len / |motif| + 1 + pad
times, so its length is |motif| * (len / |motif| + 1 + pad), which
always exceeds len plus pad extra motif copies. -/
theorem create_pure_seq_exceeds (motif : Str) (len pad : Nat) (h : motif ≠ []) :
    createPureSeq motif len pad =
      (List.replicate (len / motif.length + 1 + pad) motif).flatten ∧
    (createPureSeq motif len pad).length =
      motif.length * (len / motif.length + 1 + pad) ∧
    len + pad * motif.length < (createPureSeq motif len pad).length := by
  have hm : 0 < motif.length := List.length_pos.2 h
  have hlen : (createPureSeq motif len pad).length =
      motif.length * (len / motif.length + 1 + pad) := by
    simp [createPureSeq, List.length_flatten, List.map_replicate, List.sum_replicate,
      smul_eq_mul, Nat.mul_comm]
  refine ⟨rfl, hlen, ?_⟩
  rw [hlen]
  have hdm : motif.length * (len / motif.length) + len % motif.length = len :=
    Nat.div_add_mod len motif.length
  have hmod : len % motif.length < motif.length := Nat.mod_lt len hm
  calc len + pad * motif.length
      = motif.length * (len / motif.length) + len % motif.length + pad * motif.length := by
        rw [hdm]
    _ < motif.length * (len / motif.length) + motif.length + pad * motif.length :=
        Nat.add_lt_add_right (Nat.add_lt_add_left hmod _) _
    _ = motif.length * (len / motif.length + 1 + pad) := by ring

/-- Witness for C6 at motif "AC", len 10, pad 4: tile count 10 and the
20-byte pure sequence. -/
theorem create_pure_seq_exceeds_witness :
    ("AC").data ≠ [] ∧
    (createPureSeq ("AC").data 10 4 =
        (List.replicate (10 / ("AC").data.length + 1 + 4) ("AC").data).flatten ∧
      (createPureSeq ("AC").data 10 4).length =
        ("AC").data.length * (10 / ("AC").data.length + 1 + 4) ∧
      10 + 4 * ("AC").data.length < (createPureSeq ("AC").data 10 4).length) ∧
    10 / ("AC").data.length + 1 + 4 = 10 ∧
    createPureSeq ("AC").data 10 4 = ("ACACACACACACACACACAC").data ∧
    (createPureSeq ("AC").data 10 4).length = 20 :=
  ⟨by decide, create_pure_seq_exceeds ("AC").data 10 4 (by decide), by decide, by decide,
    by decide⟩

/-- C7: the Catalog Loader derives each retained motif by stripping one
leading character and two trailing characters from the locus-structure
string, and any inspected record with a missing required field (a
missing LocusId is hit before the filter; the other fields once the
filter matches) or a too-short structure string makes the record
processing fail, which in turn fails the whole load, not just that
record. -/
theorem catalog_loader_strip_and_fail_fast :
    (∀ (filter : Option (Str → Bool)) (r : CatalogRecord),
        (r.locusId = none ∨
          (∃ l, r.locusId = some l ∧ matchesFilter filter l = true ∧
            (r.referenceRegion = none ∨ r.locusStructure = none ∨
              ∃ st, r.locusStructure = some st ∧ st.length < 3))) →
        processCatalogRecord filter r = none) ∧
    (∀ (filter : Option (Str → Bool)) (r : CatalogRecord) (l rr m : Str),
        processCatalogRecord filter r = some (some (l, rr, m)) →
        ∃ st, r.locusStructure = some st ∧ 3 ≤ st.length ∧
          m = (st.drop 1).take (st.length - 3)) ∧
    (∀ (filter : Option (Str → Bool)) (records : List CatalogRecord) (r : CatalogRecord),
        r ∈ records → processCatalogRecord filter r = none →
        loadStrCatalog filter records = none) := by
  refine ⟨?_, ?_, ?_⟩
  · intro filter r hbad
    rcases hbad with hid | ⟨l, hl, hmatch, hbad2⟩
    · simp [processCatalogRecord, hid]
    · rcases hbad2 with hrr | hls | ⟨st, hst, hlen⟩
      · simp [processCatalogRecord, hl, hmatch, hrr]
      · cases hrr : r.referenceRegion with
        | none => simp [processCatalogRecord, hl, hmatch, hrr]
        | some rr => simp [processCatalogRecord, hl, hmatch, hrr, hls]
      · cases hrr : r.referenceRegion with
        | none => simp [processCatalogRecord, hl, hmatch, hrr]
        | some rr =>
          have hstrip : stripLocusStructure st = none := by
            simp [stripLocusStructure, Nat.not_le.2 hlen]
          simp [processCatalogRecord, hl, hmatch, hrr, hst, hstrip]
  · intro filter r l rr m hok
    unfold processCatalogRecord at hok
    split at hok
    · exact Option.noConfusion hok
    · split at hok
      · split at hok
        · exact Option.noConfusion hok
        · split at hok
          · exact Option.noConfusion hok
          · next st hst =>
            split at hok
            · exact Option.noConfusion hok
            · next m' hstrip =>
              injection hok with hok
              injection hok with hok
              injection hok with he1 hok
              injection hok with he2 he3
              unfold stripLocusStructure at hstrip
              split at hstrip
              · next hge =>
                injection hstrip with hstrip
                exact ⟨st, hst, hge, by rw [← he3, ← hstrip]⟩
              · exact Option.noConfusion hstrip
      · injection hok with hok
        exact Option.noConfusion hok
  · intro filter records r hr hnone
    exact loadStrCatalogGo_none filter records [] [] r hr hnone

/-- C7 counterexample to the unqualified failure clause: under a filter
that rejects every locus id, a record that is missing both its
ReferenceRegion and its LocusStructure fields is dropped by the filter
before those fields are unwrapped, so the load succeeds instead of
failing as a whole. -/
theorem catalog_filter_skips_malformed_cex :
    loadStrCatalog (some (fun _ => false))
        [CatalogRecord.mk (some ("L1").data) none none] = some ([], []) :=
  rfl

/-- Witness for C7: a record missing its reference region fails, a good
record's motif is the stripped structure, and a record with no fields
fails a whole one-record load. -/
theorem catalog_loader_strip_and_fail_fast_witness :
    processCatalogRecord none
        (CatalogRecord.mk (some ("L1").data) none (some ("(CAG)*").data)) = none ∧
    (∃ st,
      (CatalogRecord.mk (some ("L2").data) (some ("chr1:1-2").data)
            (some ("(CAG)*").data)).locusStructure = some st ∧
        3 ≤ st.length ∧ ("CAG").data = (st.drop 1).take (st.length - 3)) ∧
    loadStrCatalog none [CatalogRecord.mk none none none] = none := by
  refine ⟨?_, ?_, ?_⟩
  · exact
      catalog_loader_strip_and_fail_fast.1 none _
        (Or.inr ⟨("L1").data, rfl, rfl, Or.inl rfl⟩)
  · exact
      catalog_loader_strip_and_fail_fast.2.1 none _ ("L2").data ("chr1:1-2").data
        ("CAG").data (by decide)
  · exact
      catalog_loader_strip_and_fail_fast.2.2 none _
        (CatalogRecord.mk none none none) (by simp) rfl

/-- C3: a triple whose repeat_len is outside (0, read_len] — including
repeat_len strictly greater than read_len — only trips the warning
condition (a log line with no state effect) and is not rejected: its
normalized count, computed with the wrapping u32 arithmetic of the
source, is still accumulated into the merged profile. -/
theorem invalid_repeat_len_still_accumulated (depths : List (Str × ℚ))
    (sampleId locusId : Str) (readLen : Nat) (mp : MergedProfile) (s : Str)
    (rl c : Nat) (d : ℚ) (hinv : rl = 0 ∨ readLen < rl) (hs : ':' ∉ s)
    (hrl : rl < 2 ^ 32) (hc : c < 2 ^ 32)
    (hd : lookupAssoc depths sampleId = some d) :
    repeatLenInvalid rl readLen = true ∧
    processTriplePart depths sampleId locusId readLen mp (encodeTriple (s, rl, c)) =
      Except.ok
        (incrementInterruption mp locusId sampleId s
          (normInterruptionCount c readLen rl d)) := by
  constructor
  · rcases hinv with h | h <;> simp [repeatLenInvalid, h]
  · rw [processTriplePart_encode depths sampleId locusId readLen mp hs hrl hc, hd]

/-- Witness for C3 at repeat_len 0 with read length 150. -/
theorem invalid_repeat_len_still_accumulated_witness :
    ((0 : Nat) = 0 ∨ 150 < 0) ∧ ':' ∉ ("T").data ∧
    lookupAssoc [(("S1").data, (10 : ℚ))] ("S1").data = some 10 ∧
    (repeatLenInvalid 0 150 = true ∧
      processTriplePart [(("S1").data, (10 : ℚ))] ("S1").data ("L1").data 150
          MergedProfile.new (encodeTriple (("T").data, 0, 1)) =
        Except.ok
          (incrementInterruption MergedProfile.new ("L1").data ("S1").data ("T").data
            (normInterruptionCount 1 150 0 10))) :=
  ⟨Or.inl rfl, by decide, rfl,
    invalid_repeat_len_still_accumulated _ _ _ _ _ _ _ _ _ (Or.inl rfl) (by decide)
      (by decide) (by decide) rfl⟩

/-- C4 counterexample: at repeat_len = 152 > read_length = 150 the u32
subtraction inside norm_interruption_count wraps modulo 2 ^ 32, so the
computed normalized count (a tiny positive value) differs from the
claimed formula read as exact arithmetic (which yields -1 there). -/
theorem norm_count_formula_cex :
    normInterruptionCount 1 150 152 1 ≠ specNormalizedCount 1 150 152 1 := by
  norm_num [normInterruptionCount, specNormalizedCount, u32Sub, u32Add]

/-- C4 (amended): within the validated range 0 < repeat_len ≤
read_length (read_length being a u32 value), the merger's normalized
count equals raw_count / ((read_length − repeat_len + 1) ×
sample_read_depth) exactly, with f64 idealised as exact rational
arithmetic; outside that range the wrapping u32 subtraction makes the
equality fail. -/
theorem norm_count_formula_valid_range (count readLen repeatLen : Nat) (depth : ℚ)
    (h0 : 0 < repeatLen) (h1 : repeatLen ≤ readLen) (h2 : readLen < 2 ^ 32) :
    normInterruptionCount count readLen repeatLen depth =
      specNormalizedCount count readLen repeatLen depth := by
  simp only [normInterruptionCount, specNormalizedCount]
  rw [u32Sub_of_le h1 h2, u32Add_small (by omega)]
  have hcast : ((readLen - repeatLen + 1 : Nat) : ℚ) =
      (readLen : ℚ) - (repeatLen : ℚ) + 1 := by
    push_cast [h1]
    ring
  rw [hcast]

/-- Witness for C4 at count 1, read_length 150, repeat_len 50, read
depth 10, giving exactly 1/1010. -/
theorem norm_count_formula_valid_range_witness :
    (0 : Nat) < 50 ∧ (50 : Nat) ≤ 150 ∧ (150 : Nat) < 2 ^ 32 ∧
    normInterruptionCount 1 150 50 10 = specNormalizedCount 1 150 50 10 ∧
    specNormalizedCount 1 150 50 10 = 1 / 1010 :=
  ⟨by decide, by decide, by decide,
    norm_count_formula_valid_range 1 150 50 10 (by decide) (by decide) (by decide),
    by norm_num [specNormalizedCount]⟩

/-- C5: a profile row whose parsed read_count is strictly below the
minimum threshold contributes nothing to the merged profile: the
processing step returns the accumulator unchanged, so no (sample,
count) entry, no reference region or motif claim, and no interruption
accumulation can come from it. -/
theorem below_min_row_contributes_nothing (filter : Option (Str → Bool))
    (minReadCount readLen : Nat) (depths : List (Str × ℚ)) (sampleId : Str)
    (mp : MergedProfile) (row : ProfileRow) (rc : Nat)
    (hparse : parseU32 row.readCountField = some rc) (hlt : rc < minReadCount) :
    processRow filter minReadCount readLen depths sampleId mp row = Except.ok mp := by
  unfold processRow
  by_cases hf : matchesFilter filter row.locusId
  · rw [if_pos hf]
    simp [hparse, hlt]
  · rw [if_neg hf]

/-- Witness for C5: a row with read count 2 under threshold 3 leaves an
empty accumulator empty. -/
theorem below_min_row_contributes_nothing_witness :
    parseU32 ("2").data = some 2 ∧ (2 : Nat) < 3 ∧
    processRow none 3 150 [] ("S1").data MergedProfile.new
        (ProfileRow.mk ("L1").data ("r1").data ("CAG").data ("2").data []) =
      Except.ok MergedProfile.new :=
  ⟨by decide, by decide,
    below_min_row_contributes_nothing none 3 150 [] ("S1").data MergedProfile.new
      (ProfileRow.mk ("L1").data ("r1").data ("CAG").data ("2").data []) 2
      (by decide) (by decide)⟩

/-- C8: Profile::write_to emits exactly one row per locus of the
catalog's motif mapping (provided every such locus has a reference
region, as load_str_catalog guarantees), in order; a locus with no
observed reads gets read_count 0, and one with no recorded
interruptions gets an empty interruption cell. -/
theorem profile_write_one_row_per_locus (p : Profile) :
    ∀ (motifs referenceRegions : List (Str × Str)),
      (∀ lm ∈ motifs, (lookupAssoc referenceRegions lm.1).isSome) →
      ∃ rows,
        profileWriteTo p motifs referenceRegions = some rows ∧
        rows.length = motifs.length ∧
        List.Forall₂
          (fun (lm : Str × Str) (row : ProfileOutRow) =>
            row.locusId = lm.1 ∧ row.motif = lm.2 ∧
            (lookupAssoc p.read_counts lm.1 = none → row.readCount = 0) ∧
            (lookupAssoc p.interruption_counts lm.1 = none →
              row.interruptionCell = []))
          motifs rows
  | [], _, _ => ⟨[], rfl, rfl, List.Forall₂.nil⟩
  | lm :: rest, refs, h => by
    obtain ⟨rr, hrr⟩ := Option.isSome_iff_exists.1 (h lm (by simp))
    obtain ⟨rows, hrows, hlen, hfa⟩ :=
      profile_write_one_row_per_locus p rest refs
        (fun x hx => h x (List.mem_cons_of_mem _ hx))
    have hrow : profileRowFor p refs lm =
        some
          { locusId := lm.1, referenceRegion := rr, motif := lm.2,
            readCount := (lookupAssoc p.read_counts lm.1).getD 0,
            interruptionCell :=
              encodeCell
                (((lookupAssoc p.interruption_counts lm.1).getD []).map
                  (fun e => (e.1.1, e.1.2, e.2))) } := by
      simp [profileRowFor, hrr]
    simp only [profileWriteTo] at hrows
    refine
      ⟨{ locusId := lm.1, referenceRegion := rr, motif := lm.2,
          readCount := (lookupAssoc p.read_counts lm.1).getD 0,
          interruptionCell :=
            encodeCell
              (((lookupAssoc p.interruption_counts lm.1).getD []).map
                (fun e => (e.1.1, e.1.2, e.2))) } :: rows,
        ?_, by simp [hlen], List.Forall₂.cons ⟨rfl, rfl, ?_, ?_⟩ hfa⟩
    · simp only [profileWriteTo, mapOption, hrow, hrows]
    · intro h0
      simp [h0]
    · intro h0
      rw [h0]
      rfl

/-- Witness for C8 on a two-locus catalog and an empty profile: both
rows appear, with read count 0 and empty interruption cells. -/
theorem profile_write_one_row_per_locus_witness :
    (∀ lm ∈ [(("L1").data, ("CAG").data), (("L2").data, ("AT").data)],
      (lookupAssoc [(("L1").data, ("r1").data), (("L2").data, ("r2").data)]
        lm.1).isSome) ∧
    ∃ rows,
      profileWriteTo (Profile.mk [] [])
          [(("L1").data, ("CAG").data), (("L2").data, ("AT").data)]
          [(("L1").data, ("r1").data), (("L2").data, ("r2").data)] = some rows ∧
      rows.length = [(("L1").data, ("CAG").data), (("L2").data, ("AT").data)].length ∧
      List.Forall₂
        (fun (lm : Str × Str) (row : ProfileOutRow) =>
          row.locusId = lm.1 ∧ row.motif = lm.2 ∧
          (lookupAssoc (Profile.mk [] []).read_counts lm.1 = none → row.readCount = 0) ∧
          (lookupAssoc (Profile.mk [] []).interruption_counts lm.1 = none →
            row.interruptionCell = []))
        [(("L1").data, ("CAG").data), (("L2").data, ("AT").data)] rows :=
  ⟨by decide,
    profile_write_one_row_per_locus (Profile.mk [] [])
      [(("L1").data, ("CAG").data), (("L2").data, ("AT").data)]
      [(("L1").data, ("r1").data), (("L2").data, ("r2").data)] (by decide)⟩

/-- C9: a profile row that passes the filter and the minimum read-count
threshold and carries a non-empty well-formed interruption cell, for a
sample absent from the read-depth table, makes merge abort at the
unchecked unwrap of the read-depth lookup — the depth-lookup panic,
distinct from a typed error result and from a skip. -/
theorem missing_read_depth_panics (filter : Option (Str → Bool))
    (minReadCount readLen : Nat) (depths : List (Str × ℚ)) (sampleId : Str)
    (mp : MergedProfile) (row : ProfileRow) (ts : List (Str × Nat × Nat)) (rc : Nat)
    (hfilter : matchesFilter filter row.locusId = true)
    (hparse : parseU32 row.readCountField = some rc) (hmin : minReadCount ≤ rc)
    (hcell : row.interruptionCell = encodeCell ts) (hne : ts ≠ [])
    (hwf : ∀ t ∈ ts, ':' ∉ t.1 ∧ ',' ∉ t.1 ∧ t.2.1 < 2 ^ 32 ∧ t.2.2 < 2 ^ 32)
    (hdepth : lookupAssoc depths sampleId = none) :
    processRow filter minReadCount readLen depths sampleId mp row =
      Except.error MergeAbort.depthLookupPanic := by
  unfold processRow
  rw [if_pos hfilter]
  simp only [hparse]
  rw [if_neg (Nat.not_lt.2 hmin)]
  have hcne : row.interruptionCell ≠ [] := by
    rw [hcell]
    exact encodeCell_ne_nil hne
  rw [if_neg hcne, hcell, splitComma_encodeCell hne (fun t ht => (hwf t ht).2.1)]
  cases ts with
  | nil => exact absurd rfl hne
  | cons t ts' =>
    obtain ⟨s, rl, c⟩ := t
    have h1 := hwf (s, rl, c) (by simp)
    simp only [List.map_cons, processTriples]
    rw [processTriplePart_encode depths sampleId row.locusId readLen _ h1.1 h1.2.2.1
      h1.2.2.2, hdepth]

/-- Witness for C9: sample S1 has a qualifying row with cell T:15:1 but
no entry in the read-depth table, and the step panics at the depth
lookup. -/
theorem missing_read_depth_panics_witness :
    matchesFilter none ("L1").data = true ∧
    parseU32 ("5").data = some 5 ∧ (1 : Nat) ≤ 5 ∧
    lookupAssoc ([] : List (Str × ℚ)) ("S1").data = none ∧
    processRow none 1 150 [] ("S1").data MergedProfile.new
        (ProfileRow.mk ("L1").data ("r1").data ("CAG").data ("5").data
          (encodeCell [(("T").data, 15, 1)])) =
      Except.error MergeAbort.depthLookupPanic :=
  ⟨rfl, by decide, by decide, rfl,
    missing_read_depth_panics none 1 150 [] ("S1").data MergedProfile.new
      (ProfileRow.mk ("L1").data ("r1").data ("CAG").data ("5").data
        (encodeCell [(("T").data, 15, 1)]))
      [(("T").data, 15, 1)] 5 rfl (by decide) (by decide) rfl (by decide) (by decide)
      rfl⟩

/-- C10: the merged-profile key invariant — every locus keyed in motifs
is also keyed in reference_regions and holds a non-empty read_counts
list — holds for the fresh accumulator, is preserved by every
successful row-processing step (add_read_count runs before
add_reference_region and add_motif on a qualifying row), and makes
every lookup that MergedProfile::write_to unwraps succeed. -/
theorem merged_profile_key_invariant :
    mpInvariant MergedProfile.new ∧
    (∀ (filter : Option (Str → Bool)) (minReadCount readLen : Nat)
        (depths : List (Str × ℚ)) (sampleId : Str) (mp : MergedProfile)
        (row : ProfileRow) (mp' : MergedProfile),
        mpInvariant mp →
        processRow filter minReadCount readLen depths sampleId mp row =
          Except.ok mp' →
        mpInvariant mp') ∧
    (∀ mp : MergedProfile, mpInvariant mp → (mergedWriteTo mp).isSome) := by
  refine ⟨?_, ?_, ?_⟩
  · intro l m hl
    exact absurd hl (by simp [MergedProfile.new, lookupAssoc])
  · intro filter minReadCount readLen depths sampleId mp row mp' hInv h
    exact processRow_preserves_mpInvariant hInv h
  · intro mp h
    exact mergedWriteTo_isSome h

/-- Witness for C10: the fresh accumulator satisfies the invariant and
its write-out succeeds. -/
theorem merged_profile_key_invariant_witness :
    mpInvariant MergedProfile.new ∧ (mergedWriteTo MergedProfile.new).isSome :=
  ⟨merged_profile_key_invariant.1,
    merged_profile_key_invariant.2.2 MergedProfile.new merged_profile_key_invariant.1⟩

end Strif
